import Mathlib

/-!
Verification development for the `gitall` repository (Go).

The repository contains two drafts of the same batch-git subsystem:
* `gitall.go` (package `gitall`): filesystem-scan driven client `GitAllClient`
  with a checkpoint structure `GitAllStatus` persisted at `<workspace>/.status.json`;
* `repo_manager.go` (package `repos`, map-based registry) and an older
  array-based draft of the same package (`src/unnamed/part_000`).

We shallowly embed the parts of these files that the claims are about:
* the filesystem is an explicit association list of paths to contents,
  plus an explicit directory listing where a function calls `os.ReadDir`;
* Go `nil` pointers become `Option`, and a nil-pointer dereference is an
  explicit `Failure.nilDeref` outcome (a Go runtime panic);
* the external go-git operations (open, worktree-clean check, pull, push)
  are modelled by a per-directory `RepoState` describing what each call
  would report for that repository;
* a batch operation is modelled by the synchronization skeleton it executes
  (`BatchEvent` list: task spawns, `WaitGroup.Wait` joins, the return), the
  list of per-repository tasks it launches (each with the trace of VCS
  actions it attempts and its final error value), and the Go value the
  batch function itself returns.
-/

/-- Outcome of a failing Go computation: an ordinary returned `error`
carrying its message, or a runtime panic from dereferencing a nil pointer. -/
inductive Failure where
  | err (msg : String)
  | nilDeref
deriving Repr, DecidableEq

/-- A filesystem as a finite map from paths to file contents.
Only the files the embedded code touches are modelled. -/
structure FS where
  files : List (String × String)
deriving Repr, DecidableEq

/-- `os.Stat` success: does a file exist at path `p`? -/
def FS.fileExists (fs : FS) (p : String) : Bool :=
  fs.files.any (fun f => f.1 == p)

/-- Contents of the file at `p`, if present (model of reading the file). -/
def FS.read (fs : FS) (p : String) : Option String :=
  (fs.files.find? (fun f => f.1 == p)).map (fun f => f.2)

/-- `ioutil.WriteFile`: create or overwrite the file at `p` with contents `c`. -/
def FS.write (fs : FS) (p c : String) : FS :=
  ⟨fs.files.filter (fun f => ¬ (f.1 == p)) ++ [(p, c)]⟩

/-- `os.Remove`: delete the file at `p`. -/
def FS.removeFile (fs : FS) (p : String) : FS :=
  ⟨fs.files.filter (fun f => ¬ (f.1 == p))⟩

/-- `filepath.Join` on one separator (path cleaning is not needed by the
claims: all modelled names are plain). -/
def pathJoin (a b : String) : String := a ++ "/" ++ b

/-- Go's string comparison `a < b` as used by `sort.SliceStable` in
`fetchAllDirs`, phrased as the non-strict `a ≤ b` a stable sort with a
strict less orders by: `a` is not greater than `b` in the lexicographic
order on the underlying character sequences. -/
def goLe (a b : String) : Prop := ¬ List.lt b.data a.data

instance goLe.dec : DecidableRel goLe := fun a b =>
  @instDecidableNot _ (List.hasDecidableLt b.data a.data)

/-- Result of an external go-git pull or push call on one repository. -/
inductive GitRes where
  | updated
  | alreadyUpToDate
  | failed (msg : String)
deriving Repr, DecidableEq

/-- What the external VCS engine would report for one directory: whether
`git.PlainOpen` succeeds, whether the worktree is clean, and what a pull
resp. push against `origin` would return. -/
structure RepoState where
  isRepo : Bool
  clean : Bool
  pullRes : GitRes
  pushRes : GitRes
deriving Repr, DecidableEq

/-- One VCS action attempted by a per-repository task. `pullAttempt` and
`pushAttempt` are the only actions that may mutate the repository's files;
opening and the clean check are read-only. -/
inductive VcsAction where
  | openAttempt (dir : String)
  | pullAttempt (dir : String)
  | pushAttempt (dir : String)
deriving Repr, DecidableEq

/-- Synchronization events of a batch call: `spawn d` is `go func(...)(d)`,
`join` is `wg.Wait()` (which blocks until every previously spawned task has
called `wg.Done()` — every task in this code calls `Done` exactly once on
every path), and `ret` is the batch function returning to its caller. -/
inductive BatchEvent where
  | spawn (dir : String)
  | join
  | ret
deriving Repr, DecidableEq

/-- Number of tasks spawned but not yet awaited when the call returns:
scan the events, counting spawns and resetting at each `wg.Wait` join. -/
def outstandingAt : List BatchEvent → Nat → Nat
  | [], n => n
  | BatchEvent.spawn _ :: evs, n => outstandingAt evs (n + 1)
  | BatchEvent.join :: evs, _ => outstandingAt evs 0
  | BatchEvent.ret :: _, n => n

/-- A batch call lets no launched task outlive it iff every spawned task
has been joined when the function returns. -/
def noTaskOutlivesCall (evs : List BatchEvent) : Bool :=
  outstandingAt evs 0 == 0

/-- Full record of one batch call: its synchronization skeleton, the tasks
it launched (directory, trace of attempted VCS actions, final error value),
and the Go `error` value the batch function itself returns. -/
structure BatchRun where
  events : List BatchEvent
  tasks : List (String × List VcsAction × Option String)
  result : Option String
deriving Repr, DecidableEq

namespace Gitall

/-- `OperationStatus` of `gitall.go`: done and still-pending directories of
one operation kind. -/
structure OperationStatus where
  doneDirs : List String
  undoneDirs : List String
deriving Repr, DecidableEq

/-- `OperationStatus.IsClear`: no pending directories. -/
def OperationStatus.IsClear (s : OperationStatus) : Bool :=
  s.undoneDirs.length == 0

/-- `GitAllStatus` of `gitall.go`. The three per-kind statuses are Go
pointers, hence `Option`: `NewGitAllStatus` leaves them nil. -/
structure GitAllStatus where
  pull : Option OperationStatus
  push : Option OperationStatus
  sync : Option OperationStatus
  statusfile : String
deriving Repr, DecidableEq

/-- `NewGitAllStatus`: all three operation statuses are nil pointers and
the status file lives at `<workspace>/.status.json`. -/
def NewGitAllStatus (workspace : String) : GitAllStatus :=
  { pull := none, push := none, sync := none
    statusfile := pathJoin workspace ".status.json" }

/-- `GitAllStatus.IsClear`: if `os.Stat` fails on the status file the
status counts as clear; otherwise the three per-kind statuses are
consulted — each one through a nil-able pointer, so a nil field is a
nil-pointer dereference panic exactly as in Go. -/
def GitAllStatus.IsClear (status : GitAllStatus) (fs : FS) : Except Failure Bool :=
  if ¬ fs.fileExists status.statusfile then Except.ok true
  else
    match status.pull with
    | none => Except.error Failure.nilDeref
    | some p =>
      if ¬ p.IsClear then Except.ok false
      else
        match status.push with
        | none => Except.error Failure.nilDeref
        | some q =>
          if ¬ q.IsClear then Except.ok false
          else
            match status.sync with
            | none => Except.error Failure.nilDeref
            | some r =>
              if ¬ r.IsClear then Except.ok false
              else Except.ok true

/-- Stand-in for `json.Marshal` of a `GitAllStatus`: a deterministic
serialization; no claim depends on the exact bytes, only on whether and
where `Save` writes. -/
def GitAllStatus.marshal (status : GitAllStatus) : String :=
  let enc : Option OperationStatus → String := fun o =>
    match o with
    | none => "null"
    | some s =>
      String.intercalate "," s.doneDirs ++ "|" ++ String.intercalate "," s.undoneDirs
  enc status.pull ++ ";" ++ enc status.push ++ ";" ++ enc status.sync

/-- `GitAllStatus.Save`: if the status is clear, return nil touching
nothing; otherwise marshal and write the status file (the write itself is
modelled as succeeding). -/
def GitAllStatus.Save (status : GitAllStatus) (fs : FS) : Except Failure FS :=
  match status.IsClear fs with
  | Except.error f => Except.error f
  | Except.ok true => Except.ok fs
  | Except.ok false => Except.ok (fs.write status.statusfile status.marshal)

/-- `GitAllStatus.Clear`: `os.Remove` of the status file; removing an
absent file is an error. -/
def GitAllStatus.Clear (status : GitAllStatus) (fs : FS) : Except Failure FS :=
  if fs.fileExists status.statusfile then
    Except.ok (fs.removeFile status.statusfile)
  else Except.error (Failure.err "remove: no such file")

/-- The operation kinds of `gitall.go` (`Mode`). -/
inductive Mode where
  | pull
  | push
  | sync
deriving Repr, DecidableEq

/-- `GitAllClient`: workspace path (auth and verbosity do not affect the
claims' properties). -/
structure GitAllClient where
  workspace : String
deriving Repr, DecidableEq

/-- `GitAllClient.fetchAllDirs`. `entries` is the `os.ReadDir` listing of
the workspace (name, is-directory). If the status is not clear the undone
directories of the requested kind are returned — through the nil-able
pointer fields; otherwise the immediate subdirectories are joined with the
workspace path and sorted ascending (`sort.SliceStable` with `<`,
modelled by stable insertion sort). -/
def fetchAllDirs (client : GitAllClient) (fs : FS)
    (entries : List (String × Bool)) (mode : Mode) :
    Except Failure (List String) :=
  let status := NewGitAllStatus client.workspace
  match status.IsClear fs with
  | Except.error f => Except.error f
  | Except.ok false =>
    match mode with
    | Mode.pull =>
      match status.pull with
      | none => Except.error Failure.nilDeref
      | some p => Except.ok p.undoneDirs
    | Mode.push =>
      match status.push with
      | none => Except.error Failure.nilDeref
      | some p => Except.ok p.undoneDirs
    | Mode.sync =>
      match status.sync with
      | none => Except.error Failure.nilDeref
      | some p => Except.ok p.undoneDirs
  | Except.ok true =>
    let dirs := (entries.filter (fun e => e.2)).map
      (fun e => pathJoin client.workspace e.1)
    Except.ok (List.insertionSort goLe dirs)

/-- `IfRepoIsClean` of `gitall.go`: worktree status of an opened
repository (the `cobra.CheckErr` error paths are external I/O failures,
outside the modelled states). -/
def IfRepoIsClean (st : RepoState) : Bool := st.clean

/-- `GitAllClient.openRepo`: `git.PlainOpen`, then the clean check; a
dirty worktree yields the error `<dir> is not clean`. Result is the error,
if any (`none` = opened successfully). -/
def openRepo (st : RepoState) (dir : String) : Option String :=
  if ¬ st.isRepo then some (dir ++ ": repository does not exist")
  else if ¬ IfRepoIsClean st then some (dir ++ " is not clean")
  else none

/-- `pullSingleRepo`: `Worktree().Pull` against `origin`;
`NoErrAlreadyUpToDate` is normalized to nil. Result is the returned error. -/
def pullSingleRepo (st : RepoState) : Option String :=
  match st.pullRes with
  | GitRes.failed m => some m
  | _ => none

/-- `pushSingleRepo`: `repo.Push` against `origin`;
`NoErrAlreadyUpToDate` is normalized to nil. Result is the returned error. -/
def pushSingleRepo (st : RepoState) : Option String :=
  match st.pushRes with
  | GitRes.failed m => some m
  | _ => none

/-- Body of one goroutine of `GitAllClient.Pull`: open (which includes the
clean check), then pull; the trace records which VCS calls were actually
attempted, the second component is the value the goroutine returns. -/
def pullTask (st : RepoState) (dir : String) : List VcsAction × Option String :=
  match openRepo st dir with
  | some e => ([VcsAction.openAttempt dir], some e)
  | none =>
    ([VcsAction.openAttempt dir, VcsAction.pullAttempt dir], pullSingleRepo st)

/-- Body of one goroutine of `GitAllClient.Push`: open, then push. -/
def pushTask (st : RepoState) (dir : String) : List VcsAction × Option String :=
  match openRepo st dir with
  | some e => ([VcsAction.openAttempt dir], some e)
  | none =>
    ([VcsAction.openAttempt dir, VcsAction.pushAttempt dir], pushSingleRepo st)

/-- Body of one goroutine of `GitAllClient.Sync`: open, then pull, and
only if the pull returned nil, push — all on the one repository value
obtained from the single open. -/
def syncTask (st : RepoState) (dir : String) : List VcsAction × Option String :=
  match openRepo st dir with
  | some e => ([VcsAction.openAttempt dir], some e)
  | none =>
    match pullSingleRepo st with
    | some e => ([VcsAction.openAttempt dir, VcsAction.pullAttempt dir], some e)
    | none =>
      ([VcsAction.openAttempt dir, VcsAction.pullAttempt dir,
        VcsAction.pushAttempt dir], pushSingleRepo st)

/-- `GitAllClient.Pull`: resolve the target directories, spawn one
goroutine per directory, and return nil — with no `wg.Wait()` before the
return. The goroutines' returned errors have no consumer. `world` gives
the external VCS behaviour per directory. -/
def PullBatch (client : GitAllClient) (fs : FS) (entries : List (String × Bool))
    (world : String → RepoState) : Except Failure BatchRun :=
  match fetchAllDirs client fs entries Mode.pull with
  | Except.error (Failure.err m) =>
    Except.ok { events := [BatchEvent.ret], tasks := [], result := some m }
  | Except.error Failure.nilDeref => Except.error Failure.nilDeref
  | Except.ok dirs =>
    Except.ok
      { events := dirs.map BatchEvent.spawn ++ [BatchEvent.ret]
        tasks := dirs.map (fun d => (d, pullTask (world d) d))
        result := none }

/-- `GitAllClient.Push`: spawn one goroutine per directory, `wg.Wait()`,
then return nil regardless of the goroutines' outcomes. -/
def PushBatch (client : GitAllClient) (fs : FS) (entries : List (String × Bool))
    (world : String → RepoState) : Except Failure BatchRun :=
  match fetchAllDirs client fs entries Mode.push with
  | Except.error (Failure.err m) =>
    Except.ok { events := [BatchEvent.ret], tasks := [], result := some m }
  | Except.error Failure.nilDeref => Except.error Failure.nilDeref
  | Except.ok dirs =>
    Except.ok
      { events := dirs.map BatchEvent.spawn ++ [BatchEvent.join, BatchEvent.ret]
        tasks := dirs.map (fun d => (d, pushTask (world d) d))
        result := none }

/-- `GitAllClient.Sync`: spawn one goroutine per directory, `wg.Wait()`,
then return nil regardless of the goroutines' outcomes. -/
def SyncBatch (client : GitAllClient) (fs : FS) (entries : List (String × Bool))
    (world : String → RepoState) : Except Failure BatchRun :=
  match fetchAllDirs client fs entries Mode.sync with
  | Except.error (Failure.err m) =>
    Except.ok { events := [BatchEvent.ret], tasks := [], result := some m }
  | Except.error Failure.nilDeref => Except.error Failure.nilDeref
  | Except.ok dirs =>
    Except.ok
      { events := dirs.map BatchEvent.spawn ++ [BatchEvent.join, BatchEvent.ret]
        tasks := dirs.map (fun d => (d, syncTask (world d) d))
        result := none }

end Gitall

namespace Repos

/-- `RepoConfig` of `repo_config.go` (the `url` field plays no role in the
claims' code paths). -/
structure RepoConfig where
  name : String
  dir : String
  branch : String
deriving Repr, DecidableEq

/-- `RepoConfig.FullDir`: the workspace-joined absolute directory. -/
def RepoConfig.FullDir (cfg : RepoConfig) (workspace : String) : String :=
  pathJoin workspace cfg.dir

/-- `IfRepoIsClean` of `repo_manager.go`: `git status --porcelain` in the
directory produces no output iff the worktree is clean. -/
def IfRepoIsClean (st : RepoState) : Bool := st.clean

/-- `RepoManager.openRepo` of `repo_manager.go`: `git.PlainOpen` only —
the clean check present in the other drafts is commented out here. -/
def openRepo (st : RepoState) (repoPath : String) : Option String :=
  if ¬ st.isRepo then some (repoPath ++ ": repository does not exist")
  else none

/-- Body of one goroutine of `RepoManager.Sync`: open (no clean check
inside), pull, and on pull success push, on the one opened repository. -/
def syncTask (st : RepoState) (repoPath : String) :
    List VcsAction × Option String :=
  match openRepo st repoPath with
  | some e => ([VcsAction.openAttempt repoPath], some e)
  | none =>
    match Gitall.pullSingleRepo st with
    | some e =>
      ([VcsAction.openAttempt repoPath, VcsAction.pullAttempt repoPath], some e)
    | none =>
      ([VcsAction.openAttempt repoPath, VcsAction.pullAttempt repoPath,
        VcsAction.pushAttempt repoPath], Gitall.pushSingleRepo st)

/-- `RepoManager.Sync` of `repo_manager.go`. The loop walks the registry
in Go map iteration order (unspecified, so the order is a parameter: the
input list). For each repository it first runs the clean check in the
loop body; on the first dirty repository the whole function returns that
error immediately — without spawning tasks for the remaining repositories
and without `wg.Wait()` for those already spawned. Only if every
repository passed the check does the function reach `wg.Wait()` and
return nil. `world` is keyed by the workspace-joined directory. -/
def Sync (world : String → RepoState) (workspace : String) :
    List RepoConfig → BatchRun
  | [] => { events := [BatchEvent.join, BatchEvent.ret], tasks := [], result := none }
  | cfg :: rest =>
    let full := cfg.FullDir workspace
    if ¬ IfRepoIsClean (world full) then
      { events := [BatchEvent.ret], tasks := []
        result := some (full ++ " is not clean") }
    else
      let br := Sync world workspace rest
      { events := BatchEvent.spawn full :: br.events
        tasks := (full, syncTask (world full) full) :: br.tasks
        result := br.result }

/-- A directory tree as seen by `RepoManager.Add`: the directory's base
name, whether `git.PlainOpen` succeeds on it, and its subdirectories
(non-directory entries are skipped by the code and therefore omitted). -/
inductive DirTree where
  | node (name : String) (isRepo : Bool) (children : List DirTree)

mutual

/-- `RepoManager.Add(repoPath, dept)` of `repo_manager.go`, projected to
the sequence of repository names it registers (in traversal order): a
negative `dept` returns immediately registering nothing; a directory that
opens as a repository is registered (and its children are not visited); a
directory that is not a repository has `Add` recursed into each
subdirectory with `dept - 1`. -/
def Add : DirTree → Int → List String
  | DirTree.node n isRepo cs, dept =>
    if dept < 0 then []
    else if isRepo then [n]
    else AddList cs (dept - 1)

/-- The recursion of `Add` over the `os.ReadDir` listing of a non-repo
directory. -/
def AddList : List DirTree → Int → List String
  | [], _ => []
  | c :: cs, dept => Add c dept ++ AddList cs dept

end

mutual

/-- Depths (distance from the root) of every repository node in a tree,
the root itself having depth `0`. -/
def repoDepths : DirTree → List Nat
  | DirTree.node _ isRepo cs =>
    (if isRepo then [0] else []) ++ (repoDepthsList cs).map (fun d => d + 1)

/-- `repoDepths` over a list of sibling subtrees. -/
def repoDepthsList : List DirTree → List Nat
  | [] => []
  | c :: cs => repoDepths c ++ repoDepthsList cs

end

/-- Registry of `repo_manager.go`: a Go map from repository name to its
config, modelled as an association list. -/
structure ReposConfig where
  repos : List (String × RepoConfig)
deriving Repr, DecidableEq

/-- Go `delete(m, k)` on the association-list model of the map. -/
def mapDelete (m : List (String × RepoConfig)) (k : String) :
    List (String × RepoConfig) :=
  m.filter (fun e => ¬ (e.1 == k))

/-- `filepath.Base`: the last component of a slash-separated path (the
characters after the final separator). -/
def baseName (p : String) : String :=
  String.mk ((p.data.reverse.takeWhile (fun c => !(c == '/'))).reverse)

/-- Stand-in for the bytes `viper.WriteConfig` writes for a given registry:
a deterministic serialization of the in-memory repos map. No claim depends
on the exact bytes, only on the file being rewritten from memory. -/
def encodeRepos (m : List (String × RepoConfig)) : String :=
  String.intercalate ";" (m.map (fun e => e.1 ++ "=" ++ e.2.dir))

/-- `RepoManager.Remove` of `repo_manager.go`: delete the base name of the
path from the repos map (a no-op on the map when absent), `viper.Set`,
and unconditionally `viper.WriteConfig` — the registry file is rewritten
from the in-memory registry on every call. Returns the new registry, the
new filesystem and the returned error (the write is modelled as
succeeding). -/
def Remove (config : ReposConfig) (cfgFile : String) (fs : FS)
    (repoPath : String) : ReposConfig × FS × Option String :=
  let repos := mapDelete config.repos (baseName repoPath)
  (⟨repos⟩, fs.write cfgFile (encodeRepos repos), none)

end Repos

namespace ReposArr

/-- `RepoManager.Remove` of the array-based draft (`src/unnamed/part_000`):
scan the repo slice for the first entry whose `dir` equals the path;
splice it out, `viper.Set` and `viper.WriteConfig` if found, otherwise
return nil without touching anything. This helper returns the spliced
slice when a match exists. -/
def removeLoop (repoPath : String) : List Repos.RepoConfig →
    Option (List Repos.RepoConfig)
  | [] => none
  | cfg :: rest =>
    if cfg.dir == repoPath then some rest
    else (removeLoop repoPath rest).map (fun l => cfg :: l)

/-- Stand-in for the bytes `viper.WriteConfig` writes for the slice-based
registry. -/
def encodeRepos (l : List Repos.RepoConfig) : String :=
  String.intercalate ";" (l.map (fun cfg => cfg.name ++ "=" ++ cfg.dir))

/-- `RepoManager.Remove` of `src/unnamed/part_000`: returns the new repo
slice, the new filesystem and the returned error. When no entry matches,
the slice, the file and the result are all left alone (`return nil` at
the end of the loop, with no write). -/
def Remove (repos : List Repos.RepoConfig) (cfgFile : String) (fs : FS)
    (repoPath : String) : List Repos.RepoConfig × FS × Option String :=
  match removeLoop repoPath repos with
  | some repos2 => (repos2, fs.write cfgFile (encodeRepos repos2), none)
  | none => (repos, fs, none)

end ReposArr

namespace Ex

/-- A workspace client at `/ws`. -/
def client : Gitall.GitAllClient := ⟨"/ws"⟩

/-- A filesystem with no checkpoint file. -/
def emptyFS : FS := ⟨[]⟩

/-- `os.ReadDir` listing of `/ws`: two repository directories and one
plain file. -/
def entries : List (String × Bool) := [("b", true), ("a", true), ("notes.txt", false)]

/-- A repository with uncommitted changes. -/
def dirtyRepo : RepoState :=
  { isRepo := true, clean := false
    pullRes := GitRes.alreadyUpToDate, pushRes := GitRes.alreadyUpToDate }

/-- A clean repository whose pull and push both succeed. -/
def cleanRepo : RepoState :=
  { isRepo := true, clean := true
    pullRes := GitRes.alreadyUpToDate, pushRes := GitRes.alreadyUpToDate }

/-- External VCS behaviour: `/ws/a` is dirty, everything else is clean. -/
def world : String → RepoState :=
  fun d => if d == "/ws/a" then dirtyRepo else cleanRepo

/-- A filesystem holding a leftover checkpoint file for `/ws`. -/
def chkFS : FS := ⟨[("/ws/.status.json", "leftover-checkpoint")]⟩

/-- An in-memory status that is clear for all three kinds (every
`undoneDirs` empty) and points at the `/ws` checkpoint file. -/
def clearStatus : Gitall.GitAllStatus :=
  { pull := some ⟨["/ws/a"], []⟩, push := some ⟨[], []⟩, sync := some ⟨[], []⟩
    statusfile := "/ws/.status.json" }

/-- Registry entries for the two repositories, as `repo_manager.go` holds
them (dir relative to the workspace). -/
def repoA : Repos.RepoConfig := ⟨"a", "a", "master"⟩

/-- Second registry entry, see `repoA`. -/
def repoB : Repos.RepoConfig := ⟨"b", "b", "master"⟩

/-- The map-based registry holding only repository `a`. -/
def registry : Repos.ReposConfig := ⟨[("a", repoA)]⟩

/-- Registry file as persisted before a call (its bytes differ from what
the model's serializer would emit for the in-memory registry). -/
def cfgFS : FS := ⟨[("/home/u/.repos.yaml", "version: 1 repos: a")]⟩

/-- A directory chain of depth 2 whose only repository sits at depth 2. -/
def chain2 : Repos.DirTree :=
  Repos.DirTree.node "root" false
    [Repos.DirTree.node "mid" false [Repos.DirTree.node "r" true []]]

end Ex

/-- When the status file is absent, `GitAllStatus.IsClear` reports clear
without consulting the per-kind statuses. -/
theorem Gitall.isClear_of_absent_file (status : Gitall.GitAllStatus) (fs : FS)
    (h : fs.fileExists status.statusfile = false) :
    status.IsClear fs = Except.ok true := by
  simp [Gitall.GitAllStatus.IsClear, h]

/-- C10: `GitAllStatus.Save` never creates a checkpoint file: when the
status file is absent on disk, `IsClear` reports clear whatever the
in-memory `DoneDirs`/`UndoneDirs` are, so `Save` returns nil with the
filesystem unchanged — nothing is written. -/
theorem Gitall.save_never_creates_checkpoint (status : Gitall.GitAllStatus)
    (fs : FS) (h : fs.fileExists status.statusfile = false) :
    status.IsClear fs = Except.ok true ∧ status.Save fs = Except.ok fs := by
  have hc : status.IsClear fs = Except.ok true := by
    simp [Gitall.GitAllStatus.IsClear, h]
  exact ⟨hc, by simp [Gitall.GitAllStatus.Save, hc]⟩

/-- Witness for C10 at a concrete input: no file on disk, yet the
in-memory status has pending directories for every kind; `Save` still
writes nothing. -/
theorem Gitall.save_never_creates_checkpoint_witness :
    (Ex.emptyFS.fileExists "/ws/.status.json" = false) ∧
    Gitall.GitAllStatus.Save
      { pull := some ⟨[], ["/ws/a"]⟩, push := some ⟨[], ["/ws/a"]⟩
        sync := some ⟨[], ["/ws/a"]⟩, statusfile := "/ws/.status.json" }
      Ex.emptyFS = Except.ok Ex.emptyFS :=
  ⟨by decide,
    (Gitall.save_never_creates_checkpoint
      { pull := some ⟨[], ["/ws/a"]⟩, push := some ⟨[], ["/ws/a"]⟩
        sync := some ⟨[], ["/ws/a"]⟩, statusfile := "/ws/.status.json" }
      Ex.emptyFS (by decide)).2⟩

/-- C5 counterexample: a status that is clear for all kinds while its
checkpoint file exists on disk. `Save` returns nil and leaves the
filesystem — including the checkpoint file — exactly as it was: the
checkpoint is not deleted, refuting that persist deletes the checkpoint
file whenever the status is clear. -/
theorem Gitall.save_leaves_clear_checkpoint_in_place :
    Ex.clearStatus.IsClear Ex.chkFS = Except.ok true ∧
    Ex.clearStatus.Save Ex.chkFS = Except.ok Ex.chkFS ∧
    Ex.chkFS.fileExists Ex.clearStatus.statusfile = true :=
  ⟨rfl, rfl, rfl⟩

/-- C5 amended: when the status is clear, `Save` returns nil with the
filesystem untouched — it neither serializes nor deletes; deleting the
checkpoint file is done only by the separate `Clear` method (which no
batch operation invokes). -/
theorem Gitall.save_noop_when_clear (status : Gitall.GitAllStatus) (fs : FS)
    (h : status.IsClear fs = Except.ok true) :
    status.Save fs = Except.ok fs ∧
    (fs.fileExists status.statusfile = true →
      status.Clear fs = Except.ok (fs.removeFile status.statusfile)) := by
  constructor
  · simp [Gitall.GitAllStatus.Save, h]
  · intro h2
    simp [Gitall.GitAllStatus.Clear, h2]

/-- Witness for the amended C5 at a concrete clear status with its
checkpoint file present. -/
theorem Gitall.save_noop_when_clear_witness :
    Ex.clearStatus.Save Ex.chkFS = Except.ok Ex.chkFS ∧
    Ex.clearStatus.Clear Ex.chkFS =
      Except.ok (Ex.chkFS.removeFile Ex.clearStatus.statusfile) :=
  ⟨(Gitall.save_noop_when_clear Ex.clearStatus Ex.chkFS rfl).1,
   (Gitall.save_noop_when_clear Ex.clearStatus Ex.chkFS rfl).2 (by decide)⟩

/-- C3: whenever a checkpoint file exists in the workspace, every
`fetchAllDirs` call — for every operation kind — dereferences the nil
`Pull` status pointer inside `IsClear` (the code never calls `Load`
before the check) and panics: the checkpoint is never read back, and no
re-invocation can resume from it. -/
theorem Gitall.fetchAllDirs_panics_when_checkpoint_exists
    (client : Gitall.GitAllClient) (fs : FS) (entries : List (String × Bool))
    (mode : Gitall.Mode)
    (h : fs.fileExists (Gitall.NewGitAllStatus client.workspace).statusfile = true) :
    Gitall.fetchAllDirs client fs entries mode = Except.error Failure.nilDeref := by
  simp [Gitall.fetchAllDirs, Gitall.GitAllStatus.IsClear, Gitall.NewGitAllStatus] at h ⊢
  simp [h]

/-- Witness for C3 at a concrete workspace whose checkpoint file exists. -/
theorem Gitall.fetchAllDirs_panics_when_checkpoint_exists_witness :
    Ex.chkFS.fileExists (Gitall.NewGitAllStatus "/ws").statusfile = true ∧
    Gitall.fetchAllDirs Ex.client Ex.chkFS Ex.entries Gitall.Mode.pull =
      Except.error Failure.nilDeref :=
  ⟨by decide,
   Gitall.fetchAllDirs_panics_when_checkpoint_exists Ex.client Ex.chkFS
     Ex.entries Gitall.Mode.pull (by decide)⟩

/-- The sort relation of `fetchAllDirs` coincides with the lexicographic
order on strings. -/
theorem goLe_iff_le (a b : String) : goLe a b ↔ a ≤ b := by
  unfold goLe
  constructor
  · intro h hb
    exact h ((List.lt_iff_lex_lt _ _).mpr (String.lt_iff_toList_lt.mp hb))
  · intro h hlt
    exact h (String.lt_iff_toList_lt.mpr ((List.lt_iff_lex_lt _ _).mp hlt))

instance goLe.total : IsTotal String goLe :=
  ⟨fun a b => by
    rcases le_total a b with h | h
    · exact Or.inl ((goLe_iff_le a b).mpr h)
    · exact Or.inr ((goLe_iff_le b a).mpr h)⟩

instance goLe.trans : IsTrans String goLe :=
  ⟨fun a b c hab hbc =>
    (goLe_iff_le a c).mpr
      (le_trans ((goLe_iff_le a b).mp hab) ((goLe_iff_le b c).mp hbc))⟩

/-- C9: with no checkpoint file present, `fetchAllDirs` succeeds for every
mode and returns exactly the immediate subdirectories of the workspace
(each joined with the workspace path, non-directories excluded), in
ascending lexicographic order. -/
theorem Gitall.fetchAllDirs_scans_sorted_subdirs
    (client : Gitall.GitAllClient) (fs : FS) (entries : List (String × Bool))
    (mode : Gitall.Mode)
    (h : fs.fileExists (Gitall.NewGitAllStatus client.workspace).statusfile = false) :
    ∃ l, Gitall.fetchAllDirs client fs entries mode = Except.ok l ∧
      l.Perm ((entries.filter (fun e => e.2)).map
        (fun e => pathJoin client.workspace e.1)) ∧
      l.Sorted (fun a b => a ≤ b) := by
  have hc : (Gitall.NewGitAllStatus client.workspace).IsClear fs = Except.ok true := by
    simp [Gitall.GitAllStatus.IsClear, h]
  refine ⟨List.insertionSort goLe
      ((entries.filter (fun e => e.2)).map (fun e => pathJoin client.workspace e.1)),
    ?_, List.perm_insertionSort _ _, ?_⟩
  · simp [Gitall.fetchAllDirs, hc]
  · exact (List.sorted_insertionSort goLe _).imp (fun hab => (goLe_iff_le _ _).mp hab)

/-- Witness for C9 on a concrete listing: names arrive unsorted and with a
plain file mixed in; the result is the two joined subdirectories in
ascending order. -/
theorem Gitall.fetchAllDirs_scans_sorted_subdirs_witness :
    ∃ l, Gitall.fetchAllDirs Ex.client Ex.emptyFS Ex.entries Gitall.Mode.sync =
        Except.ok l ∧
      l.Perm ((Ex.entries.filter (fun e => e.2)).map
        (fun e => pathJoin Ex.client.workspace e.1)) ∧
      l.Sorted (fun a b => a ≤ b) :=
  Gitall.fetchAllDirs_scans_sorted_subdirs Ex.client Ex.emptyFS Ex.entries
    Gitall.Mode.sync (by decide)

/-- C7: in both sync drafts, if a repository's sync task attempts a push
at all, then its trace is exactly one open, then one pull, then the push —
pull strictly precedes push on the single opened repository — and the pull
returned nil (success or already-up-to-date). -/
theorem Gitall.sync_pull_strictly_precedes_push (st : RepoState) (dir : String) :
    (VcsAction.pushAttempt dir ∈ (Gitall.syncTask st dir).1 →
      (Gitall.syncTask st dir).1 =
        [VcsAction.openAttempt dir, VcsAction.pullAttempt dir,
          VcsAction.pushAttempt dir] ∧
      Gitall.pullSingleRepo st = none) ∧
    (VcsAction.pushAttempt dir ∈ (Repos.syncTask st dir).1 →
      (Repos.syncTask st dir).1 =
        [VcsAction.openAttempt dir, VcsAction.pullAttempt dir,
          VcsAction.pushAttempt dir] ∧
      Gitall.pullSingleRepo st = none) := by
  obtain ⟨ir, cl, pr, ps⟩ := st
  constructor <;> intro h <;> cases ir <;> cases cl <;> cases pr <;>
    simp_all [Gitall.syncTask, Repos.syncTask, Gitall.openRepo, Repos.openRepo,
      Gitall.IfRepoIsClean, Repos.IfRepoIsClean, Gitall.pullSingleRepo]

/-- Witness for C7 on a clean repository whose sync task reaches the push. -/
theorem Gitall.sync_pull_strictly_precedes_push_witness :
    (Gitall.syncTask Ex.cleanRepo "/ws/b").1 =
      [VcsAction.openAttempt "/ws/b", VcsAction.pullAttempt "/ws/b",
        VcsAction.pushAttempt "/ws/b"] ∧
    Gitall.pullSingleRepo Ex.cleanRepo = none :=
  (Gitall.sync_pull_strictly_precedes_push Ex.cleanRepo "/ws/b").1 (by decide)

/-- C1: a concrete batch over `/ws` in which the task for `/ws/a` fails
(dirty worktree) while the task for `/ws/b` succeeds. Both `Push` and
`Sync` still return nil: the goroutines' error returns have no consumer,
nothing is aggregated, and no persist of any tracker happens (the batch
bodies contain no `Save` call at all). This refutes that a batch returns
a failure aggregating per-repository errors whenever a task failed. -/
theorem Gitall.push_and_sync_return_nil_despite_task_failure :
    Gitall.PushBatch Ex.client Ex.emptyFS Ex.entries Ex.world = Except.ok
      { events := [BatchEvent.spawn "/ws/a", BatchEvent.spawn "/ws/b",
                   BatchEvent.join, BatchEvent.ret]
        tasks := [("/ws/a", [VcsAction.openAttempt "/ws/a"],
                    some "/ws/a is not clean"),
                  ("/ws/b", [VcsAction.openAttempt "/ws/b",
                    VcsAction.pushAttempt "/ws/b"], none)]
        result := none } ∧
    Gitall.SyncBatch Ex.client Ex.emptyFS Ex.entries Ex.world = Except.ok
      { events := [BatchEvent.spawn "/ws/a", BatchEvent.spawn "/ws/b",
                   BatchEvent.join, BatchEvent.ret]
        tasks := [("/ws/a", [VcsAction.openAttempt "/ws/a"],
                    some "/ws/a is not clean"),
                  ("/ws/b", [VcsAction.openAttempt "/ws/b",
                    VcsAction.pullAttempt "/ws/b",
                    VcsAction.pushAttempt "/ws/b"], none)]
        result := none } := by
  constructor <;> rfl

/-- C2: on the same concrete workspace, `Push` and `Sync` pass a
`wg.Wait()` join barrier before returning (no spawned task outstanding at
return), but `Pull` spawns its per-repository goroutines and returns with
both still unjoined — its body has no `wg.Wait()` — so pull tasks survive
past the return of the batch call. -/
theorem Gitall.pull_returns_before_tasks_complete :
    (Gitall.PullBatch Ex.client Ex.emptyFS Ex.entries Ex.world).map
      (fun br => (noTaskOutlivesCall br.events, br.events.length)) =
      Except.ok (false, 3) ∧
    (Gitall.PushBatch Ex.client Ex.emptyFS Ex.entries Ex.world).map
      (fun br => noTaskOutlivesCall br.events) = Except.ok true ∧
    (Gitall.SyncBatch Ex.client Ex.emptyFS Ex.entries Ex.world).map
      (fun br => noTaskOutlivesCall br.events) = Except.ok true := by
  refine ⟨?_, ?_, ?_⟩ <;> rfl

/-- C4 counterexample: `RepoManager.Sync` (repo_manager.go) over the two
repositories `a` (dirty) and `b` (clean) in this iteration order returns
at the first dirty repository: no task is launched for any repository —
the clean sibling `b` gets no pull and no push at all, although its state
would let both succeed. -/
theorem Repos.sync_aborts_batch_at_first_dirty_repo :
    Repos.Sync Ex.world "/ws" [Ex.repoA, Ex.repoB] =
      { events := [BatchEvent.ret], tasks := []
        result := some "/ws/a is not clean" } ∧
    Repos.IfRepoIsClean (Ex.world "/ws/b") = true ∧
    Gitall.pullSingleRepo (Ex.world "/ws/b") = none ∧
    Gitall.pushSingleRepo (Ex.world "/ws/b") = none :=
  ⟨rfl, rfl, rfl, rfl⟩

/-- C4 amended, proved for the `GitAllClient` batches of `gitall.go`: a
repository with uncommitted changes fails its pull/push/sync task with the
not-clean error before any pull or push is attempted (so its files are not
altered), and a clean sibling in the same sync batch still gets its full
task — open, pull, push — and succeeds. -/
theorem Gitall.dirty_repo_fails_no_mutation_siblings_succeed
    (client : Gitall.GitAllClient) (fs : FS) (entries : List (String × Bool))
    (world : String → RepoState) (dirs : List String) (d e : String)
    (hfetch : Gitall.fetchAllDirs client fs entries Gitall.Mode.sync =
      Except.ok dirs)
    (hd : d ∈ dirs) (he : e ∈ dirs)
    (hdrepo : (world d).isRepo = true) (hddirty : (world d).clean = false)
    (herepo : (world e).isRepo = true) (heclean : (world e).clean = true)
    (hepull : Gitall.pullSingleRepo (world e) = none)
    (hepush : Gitall.pushSingleRepo (world e) = none) :
    Gitall.pullTask (world d) d =
      ([VcsAction.openAttempt d], some (d ++ " is not clean")) ∧
    Gitall.pushTask (world d) d =
      ([VcsAction.openAttempt d], some (d ++ " is not clean")) ∧
    Gitall.syncTask (world d) d =
      ([VcsAction.openAttempt d], some (d ++ " is not clean")) ∧
    ∃ br, Gitall.SyncBatch client fs entries world = Except.ok br ∧
      (d, ([VcsAction.openAttempt d], some (d ++ " is not clean"))) ∈ br.tasks ∧
      (e, ([VcsAction.openAttempt e, VcsAction.pullAttempt e,
        VcsAction.pushAttempt e], (none : Option String))) ∈ br.tasks := by
  have hdtask : Gitall.syncTask (world d) d =
      ([VcsAction.openAttempt d], some (d ++ " is not clean")) := by
    simp [Gitall.syncTask, Gitall.openRepo, Gitall.IfRepoIsClean, hdrepo, hddirty]
  have hetask : Gitall.syncTask (world e) e =
      ([VcsAction.openAttempt e, VcsAction.pullAttempt e,
        VcsAction.pushAttempt e], (none : Option String)) := by
    simp [Gitall.syncTask, Gitall.openRepo, Gitall.IfRepoIsClean, herepo,
      heclean, hepull, hepush]
  refine ⟨?_, ?_, hdtask, ?_⟩
  · simp [Gitall.pullTask, Gitall.openRepo, Gitall.IfRepoIsClean, hdrepo, hddirty]
  · simp [Gitall.pushTask, Gitall.openRepo, Gitall.IfRepoIsClean, hdrepo, hddirty]
  · have hbatch : Gitall.SyncBatch client fs entries world = Except.ok
        { events := dirs.map BatchEvent.spawn ++ [BatchEvent.join, BatchEvent.ret]
          tasks := dirs.map (fun x => (x, Gitall.syncTask (world x) x))
          result := none } := by
      simp [Gitall.SyncBatch, hfetch]
    refine ⟨_, hbatch, ?_, ?_⟩
    · have hm := List.mem_map_of_mem
        (fun x => (x, Gitall.syncTask (world x) x)) hd
      simpa [hdtask] using hm
    · have hm := List.mem_map_of_mem
        (fun x => (x, Gitall.syncTask (world x) x)) he
      simpa [hetask] using hm

/-- Witness for the amended C4 on the concrete `/ws` batch: `/ws/a` is
dirty, `/ws/b` is clean, both are targets of the same sync batch. -/
theorem Gitall.dirty_repo_fails_no_mutation_siblings_succeed_witness :
    Gitall.pullTask (Ex.world "/ws/a") "/ws/a" =
      ([VcsAction.openAttempt "/ws/a"], some ("/ws/a" ++ " is not clean")) ∧
    Gitall.pushTask (Ex.world "/ws/a") "/ws/a" =
      ([VcsAction.openAttempt "/ws/a"], some ("/ws/a" ++ " is not clean")) ∧
    Gitall.syncTask (Ex.world "/ws/a") "/ws/a" =
      ([VcsAction.openAttempt "/ws/a"], some ("/ws/a" ++ " is not clean")) ∧
    ∃ br, Gitall.SyncBatch Ex.client Ex.emptyFS Ex.entries Ex.world =
        Except.ok br ∧
      ("/ws/a", ([VcsAction.openAttempt "/ws/a"],
        some ("/ws/a" ++ " is not clean"))) ∈ br.tasks ∧
      ("/ws/b", ([VcsAction.openAttempt "/ws/b", VcsAction.pullAttempt "/ws/b",
        VcsAction.pushAttempt "/ws/b"], (none : Option String))) ∈ br.tasks :=
  Gitall.dirty_repo_fails_no_mutation_siblings_succeed Ex.client Ex.emptyFS
    Ex.entries Ex.world ["/ws/a", "/ws/b"] "/ws/a" "/ws/b" rfl (by decide)
    (by decide) rfl rfl rfl rfl rfl rfl

/-- C8 counterexample: `RepoManager.Remove` of `repo_manager.go` on a path
whose base name matches no registry entry. The in-memory registry is
unchanged and nil is returned, but `viper.WriteConfig` runs
unconditionally: the registry file is rewritten from the in-memory
registry and its contents change — it is not byte-identical. -/
theorem Repos.remove_unknown_rewrites_registry_file :
    (Repos.Remove Ex.registry "/home/u/.repos.yaml" Ex.cfgFS "/ws/zzz").1 =
      Ex.registry ∧
    (Repos.Remove Ex.registry "/home/u/.repos.yaml" Ex.cfgFS "/ws/zzz").2.2 =
      none ∧
    (Repos.Remove Ex.registry "/home/u/.repos.yaml" Ex.cfgFS
      "/ws/zzz").2.1.read "/home/u/.repos.yaml" = some "a=a" ∧
    Ex.cfgFS.read "/home/u/.repos.yaml" = some "version: 1 repos: a" ∧
    (Repos.Remove Ex.registry "/home/u/.repos.yaml" Ex.cfgFS "/ws/zzz").2.1 ≠
      Ex.cfgFS :=
  ⟨rfl, rfl, rfl, rfl, by decide⟩

/-- The scan of the array-based `Remove` finds nothing when no entry's
`dir` equals the path. -/
theorem ReposArr.removeLoop_eq_none (p : String) :
    ∀ repos : List Repos.RepoConfig, (∀ cfg ∈ repos, cfg.dir ≠ p) →
      ReposArr.removeLoop p repos = none := by
  intro repos
  induction repos with
  | nil => intro _; rfl
  | cons c cs ih =>
    intro h
    have hc : c.dir ≠ p := h c (List.mem_cons_self c cs)
    have ht := ih (fun cfg hcfg => h cfg (List.mem_cons_of_mem c hcfg))
    simp [ReposArr.removeLoop, hc, ht]

/-- C8 amended: in the array-based draft (`src/unnamed/part_000`),
removing a path that matches no registry entry returns nil without
writing: the registry slice and the registry file are left untouched, so
the file stays byte-identical. (The map-based `repo_manager.go` variant
instead rewrites the file on every call, see the counterexample.) -/
theorem ReposArr.remove_unknown_is_noop (repos : List Repos.RepoConfig)
    (cfgFile : String) (fs : FS) (p : String)
    (h : ∀ cfg ∈ repos, cfg.dir ≠ p) :
    ReposArr.Remove repos cfgFile fs p = (repos, fs, none) := by
  have hl := ReposArr.removeLoop_eq_none p repos h
  simp [ReposArr.Remove, hl]

/-- Witness for the amended C8: removing an unknown path from the slice
registry holding only repository `a` touches nothing. -/
theorem ReposArr.remove_unknown_is_noop_witness :
    ReposArr.Remove [Ex.repoA] "/home/u/.repos.yaml" Ex.cfgFS "/ws/zzz" =
      ([Ex.repoA], Ex.cfgFS, none) :=
  ReposArr.remove_unknown_is_noop [Ex.repoA] "/home/u/.repos.yaml" Ex.cfgFS
    "/ws/zzz" (by decide)

/-- C6 counterexample: on a tree of depth 0 — the root itself is a
repository — `Add` with `maxDepth = 0` does not return immediately with no
action: it opens the root and registers it. Only a negative depth
short-circuits. -/
theorem Repos.add_zero_depth_registers_root_repo :
    Repos.Add (Repos.DirTree.node "r" true []) 0 = ["r"] ∧
    Repos.Add (Repos.DirTree.node "r" true []) (-1) = [] :=
  ⟨rfl, rfl⟩

/-- Induction principle for `DirTree` giving the hypothesis for every
child in the child list. -/
theorem Repos.DirTree.recMem (P : Repos.DirTree → Prop)
    (h : ∀ n r cs, (∀ c ∈ cs, P c) → P (Repos.DirTree.node n r cs)) :
    ∀ t, P t := by
  have key : ∀ (k : Nat) (t : Repos.DirTree), sizeOf t ≤ k → P t := by
    intro k
    induction k with
    | zero =>
      intro t ht
      cases t with
      | node n r cs =>
        rw [Repos.DirTree.node.sizeOf_spec] at ht
        omega
    | succ k ih =>
      intro t ht
      cases t with
      | node n r cs =>
        apply h
        intro c hc
        apply ih
        have h1 : sizeOf c < sizeOf cs := List.sizeOf_lt_of_mem hc
        rw [Repos.DirTree.node.sizeOf_spec] at ht
        omega
  intro t
  exact key (sizeOf t) t (le_refl _)

/-- The recursion of `Add` over siblings registers nothing iff no sibling
call registers anything. -/
theorem Repos.AddList_eq_nil_iff (cs : List Repos.DirTree) (dept : Int) :
    Repos.AddList cs dept = [] ↔ ∀ c ∈ cs, Repos.Add c dept = [] := by
  induction cs with
  | nil => simp [Repos.AddList]
  | cons c cs ih => simp [Repos.AddList, ih]

/-- Membership in the sibling depth scan. -/
theorem Repos.mem_repoDepthsList (cs : List Repos.DirTree) (d : Nat) :
    d ∈ Repos.repoDepthsList cs ↔ ∃ c ∈ cs, d ∈ Repos.repoDepths c := by
  induction cs with
  | nil => simp [Repos.repoDepthsList]
  | cons c cs ih => simp [Repos.repoDepthsList, ih]

/-- A tree without any repository node registers nothing at any depth. -/
theorem Repos.add_eq_nil_of_no_repo :
    ∀ t : Repos.DirTree, Repos.repoDepths t = [] →
      ∀ dept : Int, Repos.Add t dept = [] := by
  intro t
  induction t using Repos.DirTree.recMem with
  | h n r cs ih =>
    intro hnone dept
    cases r with
    | true => simp [Repos.repoDepths] at hnone
    | false =>
      simp only [Repos.repoDepths, if_neg Bool.false_ne_true, List.nil_append,
        List.map_eq_nil_iff] at hnone
      unfold Repos.Add
      split
      · rfl
      · rw [if_neg Bool.false_ne_true, Repos.AddList_eq_nil_iff]
        intro c hc
        apply ih c hc
        have : Repos.repoDepths c = [] := by
          rcases hx : Repos.repoDepths c with _ | ⟨d, ds⟩
          · rfl
          · exfalso
            have hmem : d ∈ Repos.repoDepthsList cs :=
              (Repos.mem_repoDepthsList cs d).mpr ⟨c, hc, by rw [hx]; simp⟩
            rw [hnone] at hmem
            simp at hmem
        exact this

/-- C6 amended: for a tree whose repositories all sit at depth `D` (and at
least one does), `Add(root, maxDepth)` registers a repository iff
`maxDepth >= D`, and registers nothing if `maxDepth < D`; only a negative
`maxDepth` returns immediately with no action — `maxDepth = 0` still opens
the root and registers it when the root itself is a repository. -/
theorem Repos.add_registers_iff_depth_within_bound :
    (∀ (t : Repos.DirTree) (dept : Int), dept < 0 → Repos.Add t dept = []) ∧
    (∀ (t : Repos.DirTree) (D : Nat) (dept : Int),
      (∀ d ∈ Repos.repoDepths t, d = D) → D ∈ Repos.repoDepths t →
      (Repos.Add t dept ≠ [] ↔ (D : Int) ≤ dept)) := by
  constructor
  · intro t dept h
    cases t with
    | node n r cs => simp [Repos.Add, h]
  · intro t
    induction t using Repos.DirTree.recMem with
    | h n r cs ih =>
      intro D dept hall hmem
      cases r with
      | true =>
        have h0 : (0 : Nat) ∈ Repos.repoDepths (Repos.DirTree.node n true cs) := by
          simp [Repos.repoDepths]
        have hD : D = 0 := (hall 0 h0).symm
        subst hD
        unfold Repos.Add
        by_cases hneg : dept < 0
        · rw [if_pos hneg]
          simp only [ne_eq, not_true_eq_false, false_iff, Nat.cast_zero]
          omega
        · rw [if_neg hneg, if_pos rfl]
          simp only [ne_eq, List.cons_ne_nil, not_false_eq_true, true_iff,
            Nat.cast_zero]
          omega
      | false =>
        have hmem2 : ∃ d0, d0 ∈ Repos.repoDepthsList cs ∧ d0 + 1 = D := by
          simp only [Repos.repoDepths, if_neg Bool.false_ne_true,
            List.nil_append, List.mem_map] at hmem
          exact hmem
        obtain ⟨D0, hD0mem, hD0eq⟩ := hmem2
        have hallc : ∀ c ∈ cs, ∀ d ∈ Repos.repoDepths c, d = D0 := by
          intro c hc d hd
          have hdm : (d + 1) ∈ Repos.repoDepths (Repos.DirTree.node n false cs) := by
            simp only [Repos.repoDepths, if_neg Bool.false_ne_true,
              List.nil_append, List.mem_map]
            exact ⟨d, (Repos.mem_repoDepthsList cs d).mpr ⟨c, hc, hd⟩, rfl⟩
          have := hall _ hdm
          omega
        unfold Repos.Add
        by_cases hneg : dept < 0
        · rw [if_pos hneg]
          simp only [ne_eq, not_true_eq_false, false_iff]
          omega
        · rw [if_neg hneg, if_neg Bool.false_ne_true]
          have hiff : Repos.AddList cs (dept - 1) ≠ [] ↔ (D0 : Int) ≤ dept - 1 := by
            constructor
            · intro hne
              have hnot : ¬ ∀ c ∈ cs, Repos.Add c (dept - 1) = [] := by
                rw [← Repos.AddList_eq_nil_iff]
                exact hne
              push_neg at hnot
              obtain ⟨c, hc, hcne⟩ := hnot
              have hcr : Repos.repoDepths c ≠ [] := by
                intro hnil
                exact hcne (Repos.add_eq_nil_of_no_repo c hnil _)
              obtain ⟨d, hd⟩ :=
                List.exists_mem_of_ne_nil (Repos.repoDepths c) hcr
              have hdD0 : d = D0 := hallc c hc d hd
              subst hdD0
              exact (ih c hc d (dept - 1) (hallc c hc) hd).mp hcne
            · intro hle
              obtain ⟨c, hc, hdc⟩ := (Repos.mem_repoDepthsList cs D0).mp hD0mem
              have hcne := (ih c hc D0 (dept - 1) (hallc c hc) hdc).mpr hle
              intro hnil
              rw [Repos.AddList_eq_nil_iff] at hnil
              exact hcne (hnil c hc)
          rw [hiff]
          constructor <;> intro <;> omega

/-- Witness for the amended C6 on the depth-2 chain: a negative depth
registers nothing, depth 2 reaches and registers the repository, depth 1
does not. -/
theorem Repos.add_registers_iff_depth_within_bound_witness :
    Repos.Add Ex.chain2 (-1) = [] ∧
    Repos.Add Ex.chain2 2 ≠ [] ∧
    Repos.Add Ex.chain2 1 = [] := by
  have h1 := Repos.add_registers_iff_depth_within_bound.1 Ex.chain2 (-1) (by decide)
  have h2 := (Repos.add_registers_iff_depth_within_bound.2 Ex.chain2 2 2
    (by decide) (by decide)).mpr (by decide)
  have h3 := Repos.add_registers_iff_depth_within_bound.2 Ex.chain2 2 1
    (by decide) (by decide)
  exact ⟨h1, h2, not_ne_iff.mp (fun hne => absurd (h3.mp hne) (by decide))⟩
